import Mathlib

/-!
Verification of `src/splash_manager.py` (class `SplashManager`).

The Python class is a splash-screen presenter over Qt: it builds a splash
surface at construction, shows it, and hands off to the main window no
earlier than `min_splash_time` (2000 ms) after it was shown.  All scheduling
is via one-shot timers (`QTimer.singleShot`) on a single-threaded event loop.

Shallow embedding: the object's fields become a record `St`; wall-clock
timestamps are integers (milliseconds, as returned by `msecsTo`); the event
loop is a `Sys` holding the object state, the current time, and the list of
pending one-shot timers sorted by fire time (stable for equal times, as Qt
fires timers of equal deadline in scheduling order).  Each Python method
becomes a function `Sys → Sys` reading the current time from `Sys.now`.
Executions are command lists: external calls (`show`, `close`, `finish`,
and the host assigning `main_window`) stamped with the wall-clock time at
which they occur, plus `tick`, which fires the earliest pending timer at or
after its deadline.  Observations that the claims talk about are recorded in
append-only logs inside `St`:
  * `doFinishCalls`  : every invocation of `_do_finish` (time, window);
  * `transitions`    : every time `splash.finish(w)` actually executed;
  * `closeEvents`    : every time the surface went visible → non-visible;
  * `log`            : the `logger.debug` lines, as an inductive of tags.
-/

namespace SplashManager

/-- Tags for the `logger.debug` lines emitted by `splash_manager.py`. -/
inductive LogMsg where
  | spinnerInvalid
  | splashDisplayed
  | mainNotSet
  | waitingMs (ms : Int)
  | splashClosed
  | splashFinished
  deriving DecidableEq, Repr

/-- The two kinds of callback handed to `QTimer.singleShot` by the class:
`self._check_and_finish` and `lambda: self._do_finish(main_window)`. -/
inductive Ev where
  | checkEv
  | doFinishEv (w : Nat)
  deriving DecidableEq, Repr

/-- The fields of the Python object (`self.…`), plus observation logs.
`splashExists` is `self.splash is not None`; `visible` is
`self.splash.isVisible()`; windows are identified by `Nat` ids. -/
structure St where
  splashExists : Bool
  visible : Bool
  spinnerStarted : Bool
  start_time : Option Int
  min_splash_time : Int
  main_window : Option Nat
  finishScheduled : Bool
  transitions : List (Int × Nat)
  closeEvents : List Int
  doFinishCalls : List (Int × Nat)
  log : List LogMsg
  deriving DecidableEq, Repr

/-- The event loop: object state, current wall-clock time (ms), and pending
one-shot timers sorted by fire time. -/
structure Sys where
  st : St
  now : Int
  pending : List (Int × Ev)
  deriving DecidableEq, Repr

/-- Insert a timer into the pending queue, after all timers with an earlier
or equal deadline (stable order for equal deadlines). -/
def insertEv (t : Int) (e : Ev) : List (Int × Ev) → List (Int × Ev)
  | [] => [(t, e)]
  | p :: rest => if p.1 ≤ t then p :: insertEv t e rest else (t, e) :: p :: rest

/-- `QTimer.singleShot(delay, e)` issued at the current time. -/
def singleShot (delay : Int) (e : Ev) (s : Sys) : Sys :=
  { s with pending := insertEv (s.now + delay) e s.pending }

/-- `logger.debug(...)`. -/
def logMsg (m : LogMsg) (s : Sys) : Sys :=
  { s with st := { s.st with log := s.st.log ++ [m] } }

/-- `SplashManager._create_splash_screen` (lines 25-78): builds the widget
tree, logs if the spinner GIF is invalid, starts the spinner movie, and
creates `self.splash`.  No code path raises; an invalid spinner only emits
a debug line and construction continues. -/
def create_splash_screen (spinnerValid : Bool) (st : St) : St :=
  let st := if spinnerValid then st
            else { st with log := st.log ++ [LogMsg.spinnerInvalid] }
  { st with spinnerStarted := true, splashExists := true }

/-- `SplashManager.__init__` (lines 10-23): field defaults, then
`_create_splash_screen()`.  `finishScheduled := false` models the absence of
the `_finish_scheduled` attribute (`hasattr` in `is_finish_scheduled`). -/
def init (spinnerValid : Bool) : St :=
  create_splash_screen spinnerValid
    { splashExists := false, visible := false, spinnerStarted := false
      start_time := none, min_splash_time := 2000, main_window := none
      finishScheduled := false, transitions := [], closeEvents := []
      doFinishCalls := [], log := [] }

/-- A freshly constructed manager placed on the event loop at time 0 with no
pending timers. -/
def initSys (spinnerValid : Bool) : Sys :=
  { st := init spinnerValid, now := 0, pending := [] }

/-- `SplashManager._do_finish` (lines 136-140): records the invocation, then
`if self.splash and self.splash.isVisible(): self.splash.finish(main_window)`
— which closes the splash surface. -/
def do_finish (w : Nat) (s : Sys) : Sys :=
  let s := { s with st :=
    { s.st with doFinishCalls := s.st.doFinishCalls ++ [(s.now, w)] } }
  if s.st.splashExists && s.st.visible then
    { s with st := { s.st with
        visible := false
        transitions := s.st.transitions ++ [(s.now, w)]
        closeEvents := s.st.closeEvents ++ [s.now]
        log := s.st.log ++ [LogMsg.splashFinished] } }
  else s

/-- `SplashManager._check_and_finish` (lines 91-98): if `self.main_window`
is set, `self._do_finish(self.main_window)`; otherwise log and retry in
100 ms. -/
def check_and_finish (s : Sys) : Sys :=
  match s.st.main_window with
  | some w => do_finish w s
  | none => singleShot 100 Ev.checkEv (logMsg LogMsg.mainNotSet s)

/-- `SplashManager.show` (lines 80-89): if the splash exists, show it,
record `start_time = currentDateTime()`, log, and
`QTimer.singleShot(self.min_splash_time, self._check_and_finish)`. -/
def showSplash (s : Sys) : Sys :=
  if s.st.splashExists then
    let s := { s with st := { s.st with
        visible := true
        start_time := some s.now
        log := s.st.log ++ [LogMsg.splashDisplayed] } }
    singleShot s.st.min_splash_time Ev.checkEv s
  else s

/-- `SplashManager.close` (lines 100-104):
`if self.splash and self.splash.isVisible(): self.splash.close()`. -/
def close (s : Sys) : Sys :=
  if s.st.splashExists && s.st.visible then
    { s with st := { s.st with
        visible := false
        closeEvents := s.st.closeEvents ++ [s.now]
        log := s.st.log ++ [LogMsg.splashClosed] } }
  else s

/-- `SplashManager.is_finish_scheduled` (lines 106-108):
`hasattr(self, '_finish_scheduled') and self._finish_scheduled`. -/
def is_finish_scheduled (s : Sys) : Bool := s.st.finishScheduled

/-- `SplashManager.finish` (lines 110-134): return if no splash; set
`_finish_scheduled = True`; if `start_time` is set, compute
`elapsed = start_time.msecsTo(now)` and `remaining = max(0, min_splash_time
- elapsed)`; if `remaining > 0`, log and defer `_do_finish(main_window)` by
`remaining`, else call `_do_finish(main_window)` immediately. -/
def finish (w : Nat) (s : Sys) : Sys :=
  if !s.st.splashExists then s
  else
    let s := { s with st := { s.st with finishScheduled := true } }
    match s.st.start_time with
    | some t0 =>
        let elapsed := s.now - t0
        let remaining := max 0 (s.st.min_splash_time - elapsed)
        if remaining > 0 then
          singleShot remaining (Ev.doFinishEv w) (logMsg (LogMsg.waitingMs remaining) s)
        else
          do_finish w s
    | none => s

/-- External calls the host application can make on the manager. -/
inductive Act where
  | callShow
  | callClose
  | callFinish (w : Nat)
  | setMain (w : Nat)
  deriving DecidableEq, Repr

/-- One step of an execution: an external call stamped with the wall-clock
time at which the host makes it, or `tick`, firing the earliest pending
timer. -/
inductive Cmd where
  | call (t : Int) (a : Act)
  | tick
  deriving DecidableEq, Repr

/-- Dispatch a fired timer callback. -/
def fire (e : Ev) (s : Sys) : Sys :=
  match e with
  | Ev.checkEv => check_and_finish s
  | Ev.doFinishEv w => do_finish w s

/-- Dispatch an external call. -/
def runAct (a : Act) (s : Sys) : Sys :=
  match a with
  | Act.callShow => showSplash s
  | Act.callClose => close s
  | Act.callFinish w => finish w s
  | Act.setMain w => { s with st := { s.st with main_window := some w } }

/-- Small-step semantics of the event loop.  Time is monotone: an external
call at time `t` advances the clock to `max now t`; a timer fires at or
after its deadline (`max now t`), never before it. -/
def step (c : Cmd) (s : Sys) : Sys :=
  match c with
  | Cmd.call t a => runAct a { s with now := max s.now t }
  | Cmd.tick =>
      match s.pending with
      | [] => s
      | (t, e) :: rest => fire e { s with now := max s.now t, pending := rest }

/-- An execution: run a command list from a state. -/
def run (cmds : List Cmd) (s : Sys) : Sys := cmds.foldl (fun s c => step c s) s

/-- Is the command an external `show()` call? -/
def isShowCmd : Cmd → Bool
  | Cmd.call _ Act.callShow => true
  | _ => false

/-- Is the command an external `finish(w)` call? -/
def isFinishCmd : Cmd → Bool
  | Cmd.call _ (Act.callFinish _) => true
  | _ => false

/-- Is the command the host assigning `main_window`? -/
def isSetMainCmd : Cmd → Bool
  | Cmd.call _ (Act.setMain _) => true
  | _ => false

/-- Number of external `show()` calls in an execution. -/
def countShows (cmds : List Cmd) : Nat := (cmds.filter isShowCmd).length

def MinTimeInv (s : Sys) : Prop :=
  (s.st.start_time = none → s.pending = [] ∧ s.st.doFinishCalls = []) ∧
  ∀ t0 : Int, s.st.start_time = some t0 →
    (∀ q ∈ s.pending, t0 + s.st.min_splash_time ≤ q.1) ∧
    (∀ p ∈ s.st.doFinishCalls, t0 + s.st.min_splash_time ≤ p.1)

/-- Scenario for C1/C2: show at t=0, finish at t=500, then two timer
firings (the 2000 ms check, then the deferred `_do_finish`). -/
def ex1 : List Cmd :=
  [Cmd.call 0 Act.callShow, Cmd.call 500 (Act.callFinish 1), Cmd.tick, Cmd.tick]

/-- A manager shown at t=0, observed at t=500 (before the minimum). -/
def exC2 : Sys :=
  { st := { splashExists := true, visible := true, spinnerStarted := true
            start_time := some 0, min_splash_time := 2000, main_window := none
            finishScheduled := false, transitions := [], closeEvents := []
            doFinishCalls := [], log := [] }
    now := 500, pending := [] }

/-- A manager shown at t=0, observed at t=2500 (after the minimum). -/
def exC3 : Sys :=
  { st := { splashExists := true, visible := true, spinnerStarted := true
            start_time := some 0, min_splash_time := 2000, main_window := none
            finishScheduled := false, transitions := [], closeEvents := []
            doFinishCalls := [], log := [] }
    now := 2500, pending := [] }

/-- Polling scenario: shown at t=0, the 2000 ms check is pending, the main
window is not yet set. -/
def exC4 : Sys :=
  { st := { splashExists := true, visible := true, spinnerStarted := true
            start_time := some 0, min_splash_time := 2000, main_window := none
            finishScheduled := false, transitions := [], closeEvents := []
            doFinishCalls := [], log := [] }
    now := 1900, pending := [(2000, Ev.checkEv)] }

/-- The same state with the main window set. -/
def exC4b : Sys :=
  { exC4 with st := { exC4.st with main_window := some 5 } }

/-- A visible splash shown at t=0, with the 2000 ms check pending, about to
be cancelled at t=300. -/
def exC5 : Sys :=
  { st := { splashExists := true, visible := true, spinnerStarted := true
            start_time := some 0, min_splash_time := 2000, main_window := none
            finishScheduled := false, transitions := [], closeEvents := []
            doFinishCalls := [], log := [] }
    now := 300, pending := [(2000, Ev.checkEv)] }

/-- Scenario for C5: after the early `close()`, the host still calls
`finish` at t=600, the check timer fires, and the deferred `_do_finish`
fires. -/
def exC5cmds : List Cmd :=
  [Cmd.call 600 (Act.callFinish 4), Cmd.tick, Cmd.tick]

/-- Number of times the surface has been closed, plus one if it is still
open: this quantity never exceeds the number of `show()` calls. -/
def closedCount (s : Sys) : Nat :=
  s.st.closeEvents.length + (if s.st.visible then 1 else 0)

/-- Scenario for C6: show at t=0, explicit `close()` at t=700, then the
check fires (no-op), the host calls `finish` at t=2300 (whose immediate
`_do_finish` is a no-op). -/
def exC6cmds : List Cmd :=
  [Cmd.call 0 Act.callShow, Cmd.call 700 Act.callClose, Cmd.tick,
   Cmd.call 2300 (Act.callFinish 9)]

/-- A splash already closed at t=700 (after a show at t=0). -/
def exC6nv : Sys :=
  { st := { splashExists := true, visible := false, spinnerStarted := true
            start_time := some 0, min_splash_time := 2000, main_window := none
            finishScheduled := false, transitions := [], closeEvents := [700]
            doFinishCalls := [], log := [] }
    now := 2300, pending := [] }

/-- Scenario for C10: show, two `finish` calls, and the timer firings, with
the main window never assigned. -/
def exC10cmds : List Cmd :=
  [Cmd.call 0 Act.callShow, Cmd.call 500 (Act.callFinish 1), Cmd.tick,
   Cmd.call 2200 (Act.callFinish 2), Cmd.tick]

/-! ### Basic lemmas about the queue and the run function -/

lemma mem_insertEv {t : Int} {e : Ev} {q : Int × Ev} :
    ∀ l : List (Int × Ev), q ∈ insertEv t e l → q = (t, e) ∨ q ∈ l := by
  intro l
  induction l with
  | nil =>
      intro h
      simp only [insertEv, List.mem_singleton] at h
      exact Or.inl h
  | cons p rest ih =>
      intro h
      simp only [insertEv] at h
      by_cases hc : p.1 ≤ t
      · rw [if_pos hc] at h
        rcases List.mem_cons.mp h with h1 | h2
        · exact Or.inr (List.mem_cons.mpr (Or.inl h1))
        · rcases ih h2 with h3 | h4
          · exact Or.inl h3
          · exact Or.inr (List.mem_cons.mpr (Or.inr h4))
      · rw [if_neg hc] at h
        rcases List.mem_cons.mp h with h1 | h2
        · exact Or.inl h1
        · exact Or.inr h2

lemma run_nil (s : Sys) : run [] s = s := rfl

lemma run_cons (c : Cmd) (cmds : List Cmd) (s : Sys) :
    run (c :: cmds) s = run cmds (step c s) := rfl

lemma run_append (l1 l2 : List Cmd) (s : Sys) :
    run (l1 ++ l2) s = run l2 (run l1 s) := List.foldl_append _ _ _ _

/-! ### Field-effect lemmas for each method -/

lemma do_finish_fields (w : Nat) (s : Sys) :
    (do_finish w s).st.start_time = s.st.start_time ∧
    (do_finish w s).st.min_splash_time = s.st.min_splash_time ∧
    (do_finish w s).pending = s.pending ∧
    (do_finish w s).now = s.now ∧
    (do_finish w s).st.doFinishCalls = s.st.doFinishCalls ++ [(s.now, w)] ∧
    (do_finish w s).st.main_window = s.st.main_window ∧
    (do_finish w s).st.finishScheduled = s.st.finishScheduled ∧
    (do_finish w s).st.splashExists = s.st.splashExists := by
  simp only [do_finish]
  split <;> simp

lemma close_fields (s : Sys) :
    (close s).st.start_time = s.st.start_time ∧
    (close s).st.min_splash_time = s.st.min_splash_time ∧
    (close s).pending = s.pending ∧
    (close s).now = s.now ∧
    (close s).st.doFinishCalls = s.st.doFinishCalls ∧
    (close s).st.main_window = s.st.main_window ∧
    (close s).st.finishScheduled = s.st.finishScheduled ∧
    (close s).st.transitions = s.st.transitions ∧
    (close s).st.splashExists = s.st.splashExists := by
  simp only [close]
  split <;> simp

lemma check_and_finish_fields (s : Sys) :
    (check_and_finish s).st.start_time = s.st.start_time ∧
    (check_and_finish s).st.min_splash_time = s.st.min_splash_time ∧
    (check_and_finish s).now = s.now ∧
    (check_and_finish s).st.main_window = s.st.main_window ∧
    (check_and_finish s).st.finishScheduled = s.st.finishScheduled ∧
    (check_and_finish s).st.splashExists = s.st.splashExists := by
  simp only [check_and_finish]
  split
  · obtain ⟨h1, h2, _, h4, _, h6, h7, h8⟩ := do_finish_fields _ s
    exact ⟨h1, h2, h4, h6, h7, h8⟩
  · simp [singleShot, logMsg]

lemma finish_fields (w : Nat) (s : Sys) :
    (finish w s).st.start_time = s.st.start_time ∧
    (finish w s).st.min_splash_time = s.st.min_splash_time ∧
    (finish w s).now = s.now ∧
    (finish w s).st.main_window = s.st.main_window ∧
    (finish w s).st.splashExists = s.st.splashExists := by
  simp only [finish]
  split
  · simp
  · split
    · split
      · simp [singleShot, logMsg]
      · have h := do_finish_fields w
          { s with st := { s.st with finishScheduled := true } }
        exact ⟨h.1, h.2.1, h.2.2.2.1, h.2.2.2.2.2.1, h.2.2.2.2.2.2.2⟩
    · simp

lemma finish_eq_of_no_splash (w : Nat) (s : Sys) (h : s.st.splashExists = false) :
    finish w s = s := by
  simp [finish, h]

lemma finish_eq_of_none (w : Nat) (s : Sys) (hsp : s.st.splashExists = true)
    (hst : s.st.start_time = none) :
    finish w s = { s with st := { s.st with finishScheduled := true } } := by
  simp [finish, hsp, hst]

lemma finish_eq_of_early (w : Nat) (s : Sys) (t0 : Int) (hsp : s.st.splashExists = true)
    (hst : s.st.start_time = some t0)
    (h2 : s.now - t0 < s.st.min_splash_time) :
    finish w s =
      singleShot (max 0 (s.st.min_splash_time - (s.now - t0))) (Ev.doFinishEv w)
        (logMsg (LogMsg.waitingMs (max 0 (s.st.min_splash_time - (s.now - t0))))
          { s with st := { s.st with finishScheduled := true } }) := by
  have hpos : max 0 (s.st.min_splash_time - (s.now - t0)) > 0 := by omega
  simp [finish, hsp, hst, hpos]

lemma finish_eq_of_late (w : Nat) (s : Sys) (t0 : Int) (hsp : s.st.splashExists = true)
    (hst : s.st.start_time = some t0)
    (h2 : s.st.min_splash_time ≤ s.now - t0) :
    finish w s = do_finish w { s with st := { s.st with finishScheduled := true } } := by
  have hnpos : ¬ (max 0 (s.st.min_splash_time - (s.now - t0)) > 0) := by omega
  simp [finish, hsp, hst, hnpos]

lemma showSplash_fields (s : Sys) :
    (showSplash s).st.min_splash_time = s.st.min_splash_time ∧
    (showSplash s).now = s.now ∧
    (showSplash s).st.main_window = s.st.main_window ∧
    (showSplash s).st.doFinishCalls = s.st.doFinishCalls ∧
    (showSplash s).st.finishScheduled = s.st.finishScheduled ∧
    (showSplash s).st.splashExists = s.st.splashExists := by
  simp only [showSplash]
  split <;> simp [singleShot]

/-! ### The minimum-display-time invariant (claim C1)

Every pending timer deadline and every `_do_finish` invocation time is at
least `start_time + min_splash_time`; before `show()`, no timer is pending
and `_do_finish` has never run. -/

lemma MinTimeInv_congr (s s' : Sys)
    (h1 : s'.st.start_time = s.st.start_time)
    (h2 : s'.st.min_splash_time = s.st.min_splash_time)
    (h3 : s'.pending = s.pending)
    (h4 : s'.st.doFinishCalls = s.st.doFinishCalls)
    (h : MinTimeInv s) : MinTimeInv s' := by
  constructor
  · intro hn
    rw [h1] at hn
    rw [h3, h4]
    exact h.1 hn
  · intro t0 ht
    rw [h1] at ht
    refine ⟨fun q hq => ?_, fun p hp => ?_⟩
    · rw [h3] at hq
      rw [h2]
      exact (h.2 t0 ht).1 q hq
    · rw [h4] at hp
      rw [h2]
      exact (h.2 t0 ht).2 p hp

lemma do_finish_MinTimeInv (w : Nat) (s : Sys) (t0 : Int)
    (hst : s.st.start_time = some t0) (h : MinTimeInv s)
    (hnow : t0 + s.st.min_splash_time ≤ s.now) :
    MinTimeInv (do_finish w s) := by
  obtain ⟨f1, f2, f3, _, f5, _, _, _⟩ := do_finish_fields w s
  constructor
  · intro hn
    rw [f1, hst] at hn
    cases hn
  · intro t1 ht
    rw [f1, hst] at ht
    obtain rfl : t0 = t1 := by injection ht
    refine ⟨fun q hq => ?_, fun p hp => ?_⟩
    · rw [f3] at hq
      rw [f2]
      exact (h.2 t0 hst).1 q hq
    · rw [f5] at hp
      rw [f2]
      rcases List.mem_append.mp hp with hp1 | hp2
      · exact (h.2 t0 hst).2 p hp1
      · rw [List.mem_singleton] at hp2
        rw [hp2]
        exact hnow

lemma finish_MinTimeInv (w : Nat) (s : Sys) (h : MinTimeInv s) :
    MinTimeInv (finish w s) := by
  by_cases hsp : s.st.splashExists = true
  · cases hst : s.st.start_time with
    | none =>
        rw [finish_eq_of_none w s hsp hst]
        exact MinTimeInv_congr s _ rfl rfl rfl rfl h
    | some t0 =>
        by_cases h2 : s.now - t0 < s.st.min_splash_time
        · rw [finish_eq_of_early w s t0 hsp hst h2]
          constructor
          · intro hn
            simp only [singleShot, logMsg] at hn
            rw [hst] at hn
            cases hn
          · intro t1 ht
            simp only [singleShot, logMsg] at ht ⊢
            rw [hst] at ht
            obtain rfl : t0 = t1 := by injection ht
            refine ⟨fun q hq => ?_, fun p hp => ?_⟩
            · rcases mem_insertEv _ hq with hq1 | hq2
              · rw [hq1]
                have := le_max_right (0 : Int) (s.st.min_splash_time - (s.now - t0))
                simp only
                omega
              · exact (h.2 t0 hst).1 q hq2
            · exact (h.2 t0 hst).2 p hp
        · rw [finish_eq_of_late w s t0 hsp hst (by omega)]
          exact do_finish_MinTimeInv w _ t0 hst
            (MinTimeInv_congr s _ rfl rfl rfl rfl h) (by simp only; omega)
  · rw [finish_eq_of_no_splash w s (by simpa using hsp)]
    exact h

lemma check_and_finish_MinTimeInv (s : Sys) (t0 : Int)
    (hst : s.st.start_time = some t0) (h : MinTimeInv s)
    (hnow : t0 + s.st.min_splash_time ≤ s.now) :
    MinTimeInv (check_and_finish s) := by
  unfold check_and_finish
  cases hmw : s.st.main_window with
  | some w => exact do_finish_MinTimeInv w s t0 hst h hnow
  | none =>
      constructor
      · intro hn
        simp only [singleShot, logMsg] at hn
        rw [hst] at hn
        cases hn
      · intro t1 ht
        simp only [singleShot, logMsg] at ht ⊢
        rw [hst] at ht
        obtain rfl : t0 = t1 := by injection ht
        refine ⟨fun q hq => ?_, fun p hp => ?_⟩
        · rcases mem_insertEv _ hq with hq1 | hq2
          · rw [hq1]
            simp only
            omega
          · exact (h.2 t0 hst).1 q hq2
        · exact (h.2 t0 hst).2 p hp

lemma showSplash_MinTimeInv (s : Sys)
    (hst : s.st.start_time = none) (h : MinTimeInv s) :
    MinTimeInv (showSplash s) := by
  unfold showSplash
  by_cases hsp : s.st.splashExists = true
  · rw [if_pos hsp]
    obtain ⟨hp, hd⟩ := h.1 hst
    constructor
    · intro hn
      simp only [singleShot] at hn
      cases hn
    · intro t1 ht
      simp only [singleShot] at ht ⊢
      obtain rfl : s.now = t1 := by injection ht
      refine ⟨fun q hq => ?_, fun p hp' => ?_⟩
      · rw [hp] at hq
        rcases mem_insertEv [] hq with hq1 | hq2
        · rw [hq1]
        · cases hq2
      · rw [hd] at hp'
        cases hp'
  · rw [if_neg hsp]
    exact h

lemma countShows_cons (c : Cmd) (l : List Cmd) :
    countShows (c :: l) = (if isShowCmd c = true then 1 else 0) + countShows l := by
  simp only [countShows, List.filter_cons]
  split <;> simp [Nat.add_comm]

lemma isShowCmd_shape (c : Cmd) (h : isShowCmd c = true) :
    ∃ t, c = Cmd.call t Act.callShow := by
  cases c with
  | call t a => cases a <;> simp_all [isShowCmd]
  | tick => simp [isShowCmd] at h

lemma step_MinTimeInv (c : Cmd) (s : Sys) (hc : isShowCmd c = false)
    (h : MinTimeInv s) :
    MinTimeInv (step c s) ∧ (step c s).st.start_time = s.st.start_time := by
  cases c with
  | call t a =>
      have h' : MinTimeInv { s with now := max s.now t } :=
        MinTimeInv_congr s _ rfl rfl rfl rfl h
      cases a with
      | callShow => simp [isShowCmd] at hc
      | callClose =>
          refine ⟨?_, ?_⟩
          · exact MinTimeInv_congr _ _ (close_fields _).1 (close_fields _).2.1
              (close_fields _).2.2.1 (close_fields _).2.2.2.2.1 h'
          · exact (close_fields _).1
      | callFinish w =>
          exact ⟨finish_MinTimeInv w _ h', (finish_fields w _).1⟩
      | setMain w =>
          exact ⟨MinTimeInv_congr _ _ rfl rfl rfl rfl h', rfl⟩
  | tick =>
      cases hpend : s.pending with
      | nil =>
          have hs : step Cmd.tick s = s := by simp [step, hpend]
          rw [hs]
          exact ⟨h, rfl⟩
      | cons q rest =>
          obtain ⟨t, e⟩ := q
          cases hst : s.st.start_time with
          | none =>
              have := (h.1 hst).1
              rw [hpend] at this
              cases this
          | some t0 =>
              have hq : t0 + s.st.min_splash_time ≤ t := by
                have := (h.2 t0 hst).1 (t, e) (by rw [hpend]; exact List.mem_cons_self _ _)
                simpa using this
              have h' : MinTimeInv { s with now := max s.now t, pending := rest } := by
                constructor
                · intro hn
                  rw [hst] at hn
                  cases hn
                · intro t1 ht
                  rw [hst] at ht
                  obtain rfl : t0 = t1 := by injection ht
                  refine ⟨fun q' hq' => ?_, fun p hp => ?_⟩
                  · exact (h.2 t0 hst).1 q'
                      (by rw [hpend]; exact List.mem_cons_of_mem _ hq')
                  · exact (h.2 t0 hst).2 p hp
              have hnow : t0 + s.st.min_splash_time ≤ max s.now t :=
                le_trans hq (le_max_right _ _)
              cases e with
              | checkEv =>
                  refine ⟨?_, ?_⟩
                  · simp only [step, hpend, fire]
                    exact check_and_finish_MinTimeInv _ t0 hst h' hnow
                  · simp only [step, hpend, fire]
                    exact (check_and_finish_fields _).1.trans hst
              | doFinishEv w =>
                  refine ⟨?_, ?_⟩
                  · simp only [step, hpend, fire]
                    exact do_finish_MinTimeInv w _ t0 hst h' hnow
                  · simp only [step, hpend, fire]
                    exact (do_finish_fields w _).1.trans hst

lemma run_MinTimeInv : ∀ (cmds : List Cmd) (s : Sys), MinTimeInv s →
    countShows cmds ≤ 1 →
    (s.st.start_time = none ∨ countShows cmds = 0) →
    MinTimeInv (run cmds s) := by
  intro cmds
  induction cmds with
  | nil => intro s h _ _; exact h
  | cons c rest ih =>
      intro s h hcount hdisj
      rw [run_cons]
      by_cases hc : isShowCmd c = true
      · obtain ⟨t, rfl⟩ := isShowCmd_shape c hc
        have hrest : countShows rest = 0 := by
          rw [countShows_cons] at hcount
          simp [isShowCmd] at hcount
          omega
        have hst : s.st.start_time = none := by
          rcases hdisj with h1 | h1
          · exact h1
          · rw [countShows_cons] at h1
            simp [isShowCmd] at h1
        have hstep : MinTimeInv (step (Cmd.call t Act.callShow) s) := by
          simp only [step, runAct]
          exact showSplash_MinTimeInv _ hst (MinTimeInv_congr s _ rfl rfl rfl rfl h)
        exact ih _ hstep (by omega) (Or.inr hrest)
      · rw [Bool.not_eq_true] at hc
        obtain ⟨hstep, hpres⟩ := step_MinTimeInv c s hc h
        have hcount' : countShows rest ≤ 1 := by
          rw [countShows_cons, hc] at hcount
          simpa using hcount
        have hdisj' : (step c s).st.start_time = none ∨ countShows rest = 0 := by
          rcases hdisj with h1 | h1
          · exact Or.inl (hpres.trans h1)
          · rw [countShows_cons, hc] at h1
            simpa using Or.inr h1
        exact ih _ hstep hcount' hdisj'

lemma initSys_MinTimeInv (sv : Bool) : MinTimeInv (initSys sv) := by
  cases sv <;>
    exact ⟨fun _ => ⟨rfl, rfl⟩,
      fun t0 h => by simp [initSys, init, create_splash_screen] at h⟩

lemma initSys_start_time (sv : Bool) : (initSys sv).st.start_time = none := by
  cases sv <;> rfl

/-- C1: in every execution from a freshly constructed manager in which
`show()` is called at most once, every invocation of `_do_finish` — whether
reached through `finish(main_window)` or through the `_check_and_finish`
polling chain started by `show()` — occurs no earlier than
`min_splash_time` (2000 ms) after the `start_time` recorded by `show()`. -/
theorem c1_min_display (sv : Bool) (cmds : List Cmd)
    (hone : countShows cmds ≤ 1) :
    ∀ p ∈ (run cmds (initSys sv)).st.doFinishCalls,
      ∃ t0, (run cmds (initSys sv)).st.start_time = some t0 ∧
        t0 + (run cmds (initSys sv)).st.min_splash_time ≤ p.1 := by
  intro p hp
  have hinv := run_MinTimeInv cmds (initSys sv) (initSys_MinTimeInv sv) hone
    (Or.inl (initSys_start_time sv))
  cases hst : (run cmds (initSys sv)).st.start_time with
  | none =>
      rw [(hinv.1 hst).2] at hp
      cases hp
  | some t0 => exact ⟨t0, rfl, (hinv.2 t0 hst).2 p hp⟩

theorem c1_min_display_witness :
    ∃ t0, (run ex1 (initSys true)).st.start_time = some t0 ∧
      t0 + (run ex1 (initSys true)).st.min_splash_time ≤ 2000 :=
  c1_min_display true ex1 (by decide) (2000, 1) (by decide)

/-- C2: a `finish(w)` call at `0 < t < min_splash_time` after `show()`
computes `remaining = max(0, min_splash_time - elapsed)`, schedules
`_do_finish(w)` exactly `remaining` later — that is, at absolute time
`start_time + min_splash_time` — and does not invoke `_do_finish` now. -/
theorem c2_early_finish (w : Nat) (s : Sys) (t0 : Int)
    (hsp : s.st.splashExists = true)
    (hst : s.st.start_time = some t0)
    (h1 : t0 < s.now)
    (h2 : s.now - t0 < s.st.min_splash_time) :
    (finish w s).pending =
      insertEv (s.now + max 0 (s.st.min_splash_time - (s.now - t0)))
        (Ev.doFinishEv w) s.pending ∧
    s.now + max 0 (s.st.min_splash_time - (s.now - t0))
        = t0 + s.st.min_splash_time ∧
    (finish w s).st.doFinishCalls = s.st.doFinishCalls := by
  rw [finish_eq_of_early w s t0 hsp hst h2]
  exact ⟨rfl, by omega, rfl⟩

theorem c2_early_finish_witness :
    (finish 7 exC2).pending =
      insertEv (exC2.now + max 0 (exC2.st.min_splash_time - (exC2.now - 0)))
        (Ev.doFinishEv 7) exC2.pending ∧
    exC2.now + max 0 (exC2.st.min_splash_time - (exC2.now - 0))
        = 0 + exC2.st.min_splash_time ∧
    (finish 7 exC2).st.doFinishCalls = exC2.st.doFinishCalls :=
  c2_early_finish 7 exC2 0 rfl rfl (by decide) (by decide)

/-- C3: a `finish(w)` call made once `min_splash_time` has already elapsed
since `show()` invokes `_do_finish(w)` synchronously, at the very time of
the call, and schedules no timer (zero extra delay). -/
theorem c3_late_finish (w : Nat) (s : Sys) (t0 : Int)
    (hsp : s.st.splashExists = true)
    (hst : s.st.start_time = some t0)
    (h : t0 + s.st.min_splash_time ≤ s.now) :
    (finish w s).st.doFinishCalls = s.st.doFinishCalls ++ [(s.now, w)] ∧
    (finish w s).pending = s.pending := by
  rw [finish_eq_of_late w s t0 hsp hst (by omega)]
  obtain ⟨_, _, f3, _, f5, _, _, _⟩ :=
    do_finish_fields w { s with st := { s.st with finishScheduled := true } }
  exact ⟨f5, f3⟩

theorem c3_late_finish_witness :
    (finish 2 exC3).st.doFinishCalls = exC3.st.doFinishCalls ++ [(exC3.now, 2)] ∧
    (finish 2 exC3).pending = exC3.pending :=
  c3_late_finish 2 exC3 0 rfl rfl (by decide)

lemma poll_chain : ∀ (n : Nat) (t : Int) (s : Sys),
    s.st.main_window = none → s.pending = [(t, Ev.checkEv)] → s.now ≤ t →
    (run (List.replicate n Cmd.tick) s).pending
        = [(t + 100 * n, Ev.checkEv)] ∧
    (run (List.replicate n Cmd.tick) s).st.doFinishCalls
        = s.st.doFinishCalls := by
  intro n
  induction n with
  | zero =>
      intro t s _ h2 _
      refine ⟨?_, rfl⟩
      rw [List.replicate_zero, run_nil, h2]
      norm_num
  | succ n ih =>
      intro t s h1 h2 h3
      rw [List.replicate_succ, run_cons]
      have hmax : max s.now t = t := max_eq_right h3
      have hstep : step Cmd.tick s =
          singleShot 100 Ev.checkEv (logMsg LogMsg.mainNotSet
            { s with now := max s.now t, pending := [] }) := by
        simp [step, h2, fire, check_and_finish, h1]
      rw [hstep]
      obtain ⟨hp, hd⟩ := ih (t + 100)
        (singleShot 100 Ev.checkEv (logMsg LogMsg.mainNotSet
          { s with now := max s.now t, pending := [] }))
        (by simp [singleShot, logMsg, h1])
        (by simp [singleShot, logMsg, insertEv, hmax])
        (by simp [singleShot, logMsg, hmax])
      refine ⟨?_, ?_⟩
      · rw [hp]
        have : t + 100 + 100 * (n : Int) = t + 100 * ((n : Int) + 1) := by ring
        simp only [Nat.cast_succ]
        rw [← this]
      · rw [hd]
        simp [singleShot, logMsg]

/-- C4: in the `_check_and_finish` polling chain, every firing with
`main_window` unset reschedules the check exactly 100 ms later — for any
number `n` of such firings, with no backoff and no retry cap, and without
ever invoking `_do_finish` — while the first firing with `main_window` set
invokes `_do_finish` exactly once and schedules nothing further. -/
theorem c4_poll (n : Nat) (w : Nat) (t : Int) (s : Sys) :
    (s.st.main_window = none → s.pending = [(t, Ev.checkEv)] → s.now ≤ t →
      (run (List.replicate n Cmd.tick) s).pending
          = [(t + 100 * n, Ev.checkEv)] ∧
      (run (List.replicate n Cmd.tick) s).st.doFinishCalls
          = s.st.doFinishCalls) ∧
    (s.st.main_window = some w → s.pending = [(t, Ev.checkEv)] →
      (step Cmd.tick s).pending = [] ∧
      (step Cmd.tick s).st.doFinishCalls
          = s.st.doFinishCalls ++ [(max s.now t, w)]) := by
  constructor
  · exact poll_chain n t s
  · intro hmw hpend
    have hstep : step Cmd.tick s =
        do_finish w { s with now := max s.now t, pending := [] } := by
      simp [step, hpend, fire, check_and_finish, hmw]
    rw [hstep]
    obtain ⟨_, _, f3, _, f5, _, _, _⟩ :=
      do_finish_fields w { s with now := max s.now t, pending := [] }
    exact ⟨f3, f5⟩

theorem c4_poll_witness :
    ((run (List.replicate 3 Cmd.tick) exC4).pending
        = [((2000 : Int) + 100 * ((3 : Nat) : Int), Ev.checkEv)] ∧
     (run (List.replicate 3 Cmd.tick) exC4).st.doFinishCalls
        = exC4.st.doFinishCalls) ∧
    ((step Cmd.tick exC4b).pending = [] ∧
     (step Cmd.tick exC4b).st.doFinishCalls
        = exC4b.st.doFinishCalls ++ [(max exC4b.now 2000, 5)]) :=
  ⟨(c4_poll 3 5 2000 exC4).1 rfl rfl (by decide),
   (c4_poll 3 5 2000 exC4b).2 rfl rfl⟩

/-! ### Surface lemmas: what happens once the splash is no longer visible -/

lemma do_finish_not_visible (w : Nat) (s : Sys) (hv : s.st.visible = false) :
    (do_finish w s).st.visible = false ∧
    (do_finish w s).st.transitions = s.st.transitions ∧
    (do_finish w s).st.closeEvents = s.st.closeEvents := by
  simp [do_finish, hv]

lemma close_not_visible (s : Sys) (hv : s.st.visible = false) : close s = s := by
  simp [close, hv]

lemma finish_not_visible (w : Nat) (s : Sys) (hv : s.st.visible = false) :
    (finish w s).st.visible = false ∧
    (finish w s).st.transitions = s.st.transitions ∧
    (finish w s).st.closeEvents = s.st.closeEvents := by
  by_cases hsp : s.st.splashExists = true
  · cases hst : s.st.start_time with
    | none =>
        rw [finish_eq_of_none w s hsp hst]
        exact ⟨hv, rfl, rfl⟩
    | some t0 =>
        by_cases h2 : s.now - t0 < s.st.min_splash_time
        · rw [finish_eq_of_early w s t0 hsp hst h2]
          exact ⟨hv, rfl, rfl⟩
        · rw [finish_eq_of_late w s t0 hsp hst (by omega)]
          exact do_finish_not_visible w _ hv
  · rw [finish_eq_of_no_splash w s (by simpa using hsp)]
    exact ⟨hv, rfl, rfl⟩

lemma check_and_finish_not_visible (s : Sys) (hv : s.st.visible = false) :
    (check_and_finish s).st.visible = false ∧
    (check_and_finish s).st.transitions = s.st.transitions ∧
    (check_and_finish s).st.closeEvents = s.st.closeEvents := by
  unfold check_and_finish
  cases s.st.main_window with
  | some w => exact do_finish_not_visible w s hv
  | none => exact ⟨hv, rfl, rfl⟩

lemma step_not_visible (c : Cmd) (s : Sys) (hc : isShowCmd c = false)
    (hv : s.st.visible = false) :
    (step c s).st.visible = false ∧
    (step c s).st.transitions = s.st.transitions ∧
    (step c s).st.closeEvents = s.st.closeEvents := by
  cases c with
  | call t a =>
      cases a with
      | callShow => simp [isShowCmd] at hc
      | callClose =>
          have hs : step (Cmd.call t Act.callClose) s
              = close { s with now := max s.now t } := rfl
          rw [hs, close_not_visible { s with now := max s.now t } hv]
          exact ⟨hv, rfl, rfl⟩
      | callFinish w => exact finish_not_visible w { s with now := max s.now t } hv
      | setMain w => exact ⟨hv, rfl, rfl⟩
  | tick =>
      cases hpend : s.pending with
      | nil =>
          have hs : step Cmd.tick s = s := by simp [step, hpend]
          rw [hs]
          exact ⟨hv, rfl, rfl⟩
      | cons q rest =>
          obtain ⟨t, e⟩ := q
          cases e with
          | checkEv =>
              have hs : step Cmd.tick s
                  = check_and_finish { s with now := max s.now t, pending := rest } := by
                simp [step, hpend, fire]
              rw [hs]
              exact check_and_finish_not_visible _ hv
          | doFinishEv w =>
              have hs : step Cmd.tick s
                  = do_finish w { s with now := max s.now t, pending := rest } := by
                simp [step, hpend, fire]
              rw [hs]
              exact do_finish_not_visible w _ hv

lemma run_not_visible : ∀ (cmds : List Cmd) (s : Sys),
    (∀ c ∈ cmds, isShowCmd c = false) → s.st.visible = false →
    (run cmds s).st.visible = false ∧
    (run cmds s).st.transitions = s.st.transitions ∧
    (run cmds s).st.closeEvents = s.st.closeEvents := by
  intro cmds
  induction cmds with
  | nil => intro s _ hv; exact ⟨hv, rfl, rfl⟩
  | cons c rest ih =>
      intro s hns hv
      rw [run_cons]
      obtain ⟨a, b, c'⟩ := step_not_visible c s (hns c (List.mem_cons_self _ _)) hv
      obtain ⟨a', b', c''⟩ := ih (step c s)
        (fun c h => hns c (List.mem_cons_of_mem _ h)) a
      exact ⟨a', b'.trans b, c''.trans c'⟩

/-- C5: if `close()` runs (at any point, in particular before any
`finish()`), the surface is non-visible afterwards, and no later sequence of
`finish(w)` / `_do_finish(w)` calls or timer firings (anything except a new
`show()`) crashes, re-shows the surface, or transitions it to the main
window: the surface stays non-visible, no `splash.finish` transition is ever
recorded beyond those already recorded, and no further close happens. -/
theorem c5_close_noop (s : Sys) (cmds : List Cmd)
    (hsp : s.st.splashExists = true)
    (hns : ∀ c ∈ cmds, isShowCmd c = false) :
    (close s).st.visible = false ∧
    (run cmds (close s)).st.visible = false ∧
    (run cmds (close s)).st.transitions = s.st.transitions ∧
    (run cmds (close s)).st.closeEvents = (close s).st.closeEvents := by
  have hcv : (close s).st.visible = false := by
    by_cases hv : s.st.visible = true
    · simp [close, hsp, hv]
    · rw [close_not_visible s (by simpa using hv)]
      simpa using hv
  obtain ⟨a, b, c⟩ := run_not_visible cmds (close s) hns hcv
  obtain ⟨_, _, _, _, _, _, _, ht, _⟩ := close_fields s
  exact ⟨hcv, a, b.trans ht, c⟩

theorem c5_close_noop_witness :
    (close exC5).st.visible = false ∧
    (run exC5cmds (close exC5)).st.visible = false ∧
    (run exC5cmds (close exC5)).st.transitions = exC5.st.transitions ∧
    (run exC5cmds (close exC5)).st.closeEvents = (close exC5).st.closeEvents :=
  c5_close_noop exC5 exC5cmds rfl (by decide)

/-! ### Closing happens at most once (claim C6) -/

lemma do_finish_closedCount (w : Nat) (s : Sys) :
    closedCount (do_finish w s) ≤ closedCount s := by
  unfold closedCount do_finish
  by_cases h : (s.st.splashExists && s.st.visible) = true
  · rw [Bool.and_eq_true] at h
    simp [h.1, h.2]
  · simp [h]

lemma close_closedCount (s : Sys) :
    closedCount (close s) ≤ closedCount s := by
  unfold closedCount close
  by_cases h : (s.st.splashExists && s.st.visible) = true
  · rw [Bool.and_eq_true] at h
    simp [h.1, h.2]
  · simp [h]

lemma finish_closedCount (w : Nat) (s : Sys) :
    closedCount (finish w s) ≤ closedCount s := by
  by_cases hsp : s.st.splashExists = true
  · cases hst : s.st.start_time with
    | none =>
        rw [finish_eq_of_none w s hsp hst]
        exact le_refl _
    | some t0 =>
        by_cases h2 : s.now - t0 < s.st.min_splash_time
        · rw [finish_eq_of_early w s t0 hsp hst h2]
          exact le_refl _
        · rw [finish_eq_of_late w s t0 hsp hst (by omega)]
          exact do_finish_closedCount w _
  · rw [finish_eq_of_no_splash w s (by simpa using hsp)]

lemma check_and_finish_closedCount (s : Sys) :
    closedCount (check_and_finish s) ≤ closedCount s := by
  unfold check_and_finish
  cases s.st.main_window with
  | some w => exact do_finish_closedCount w s
  | none => exact le_refl _

lemma showSplash_closedCount (s : Sys) :
    closedCount (showSplash s) ≤ closedCount s + 1 := by
  unfold closedCount showSplash
  by_cases h : s.st.splashExists = true
  · simp [h, singleShot]
  · simp [h]

lemma step_closedCount (c : Cmd) (s : Sys) :
    closedCount (step c s)
      ≤ closedCount s + (if isShowCmd c = true then 1 else 0) := by
  cases c with
  | call t a =>
      cases a with
      | callShow =>
          simpa [isShowCmd] using showSplash_closedCount { s with now := max s.now t }
      | callClose =>
          simpa [isShowCmd] using close_closedCount { s with now := max s.now t }
      | callFinish w =>
          simpa [isShowCmd] using finish_closedCount w { s with now := max s.now t }
      | setMain w => simp [isShowCmd, step, runAct, closedCount]
  | tick =>
      cases hpend : s.pending with
      | nil =>
          have hs : step Cmd.tick s = s := by simp [step, hpend]
          simp [hs, isShowCmd]
      | cons q rest =>
          obtain ⟨t, e⟩ := q
          cases e with
          | checkEv =>
              have hs : step Cmd.tick s
                  = check_and_finish { s with now := max s.now t, pending := rest } := by
                simp [step, hpend, fire]
              simpa [hs, isShowCmd] using
                check_and_finish_closedCount { s with now := max s.now t, pending := rest }
          | doFinishEv w =>
              have hs : step Cmd.tick s
                  = do_finish w { s with now := max s.now t, pending := rest } := by
                simp [step, hpend, fire]
              simpa [hs, isShowCmd] using
                do_finish_closedCount w { s with now := max s.now t, pending := rest }

lemma run_closedCount : ∀ (cmds : List Cmd) (s : Sys),
    closedCount (run cmds s) ≤ closedCount s + countShows cmds := by
  intro cmds
  induction cmds with
  | nil => intro s; simp [run_nil, countShows]
  | cons c rest ih =>
      intro s
      rw [run_cons, countShows_cons]
      have h1 := ih (step c s)
      have h2 := step_closedCount c s
      by_cases hc : isShowCmd c = true <;> simp [hc] at h2 ⊢ <;> omega

/-- C6: in every execution from a freshly constructed manager in which
`show()` is called at most once, the surface is closed at most once in
total, counting both `close()` and the `_do_finish` transition; and
whichever of the two runs when the surface is no longer visible does
nothing — `close` leaves the whole system untouched and `_do_finish`
neither re-shows nor transitions nor closes. -/
theorem c6_closed_once (sv : Bool) (cmds : List Cmd)
    (hone : countShows cmds ≤ 1) :
    (run cmds (initSys sv)).st.closeEvents.length ≤ 1 ∧
    (∀ (s : Sys) (w : Nat), s.st.visible = false →
      close s = s ∧
      (do_finish w s).st.visible = false ∧
      (do_finish w s).st.transitions = s.st.transitions ∧
      (do_finish w s).st.closeEvents = s.st.closeEvents) := by
  constructor
  · have h := run_closedCount cmds (initSys sv)
    have hinit : closedCount (initSys sv) = 0 := by cases sv <;> rfl
    have h2 : (run cmds (initSys sv)).st.closeEvents.length
        ≤ closedCount (run cmds (initSys sv)) := Nat.le_add_right _ _
    omega
  · intro s w hv
    obtain ⟨a, b, c⟩ := do_finish_not_visible w s hv
    exact ⟨close_not_visible s hv, a, b, c⟩

theorem c6_closed_once_witness :
    (run exC6cmds (initSys true)).st.closeEvents.length ≤ 1 ∧
    (close exC6nv = exC6nv ∧
     (do_finish 9 exC6nv).st.visible = false ∧
     (do_finish 9 exC6nv).st.transitions = exC6nv.st.transitions ∧
     (do_finish 9 exC6nv).st.closeEvents = exC6nv.st.closeEvents) :=
  ⟨(c6_closed_once true exC6cmds (by decide)).1,
   (c6_closed_once true exC6cmds (by decide)).2 exC6nv 9 rfl⟩

/-! ### The finish-scheduled flag (claim C7) -/

lemma step_splashExists (c : Cmd) (s : Sys) :
    (step c s).st.splashExists = s.st.splashExists := by
  cases c with
  | call t a =>
      cases a with
      | callShow => exact (showSplash_fields _).2.2.2.2.2
      | callClose => exact (close_fields _).2.2.2.2.2.2.2.2
      | callFinish w => exact (finish_fields w _).2.2.2.2
      | setMain w => rfl
  | tick =>
      cases hpend : s.pending with
      | nil => simp [step, hpend]
      | cons q rest =>
          obtain ⟨t, e⟩ := q
          cases e with
          | checkEv =>
              have hs : step Cmd.tick s
                  = check_and_finish { s with now := max s.now t, pending := rest } := by
                simp [step, hpend, fire]
              rw [hs]
              exact (check_and_finish_fields _).2.2.2.2.2
          | doFinishEv w =>
              have hs : step Cmd.tick s
                  = do_finish w { s with now := max s.now t, pending := rest } := by
                simp [step, hpend, fire]
              rw [hs]
              exact (do_finish_fields w _).2.2.2.2.2.2.2

lemma run_splashExists : ∀ (cmds : List Cmd) (s : Sys),
    (run cmds s).st.splashExists = s.st.splashExists := by
  intro cmds
  induction cmds with
  | nil => intro s; rfl
  | cons c rest ih =>
      intro s
      rw [run_cons]
      exact (ih (step c s)).trans (step_splashExists c s)

lemma step_finishScheduled (c : Cmd) (s : Sys) (hc : isFinishCmd c = false) :
    (step c s).st.finishScheduled = s.st.finishScheduled := by
  cases c with
  | call t a =>
      cases a with
      | callShow => exact (showSplash_fields _).2.2.2.2.1
      | callClose => exact (close_fields _).2.2.2.2.2.2.1
      | callFinish w => simp [isFinishCmd] at hc
      | setMain w => rfl
  | tick =>
      cases hpend : s.pending with
      | nil => simp [step, hpend]
      | cons q rest =>
          obtain ⟨t, e⟩ := q
          cases e with
          | checkEv =>
              have hs : step Cmd.tick s
                  = check_and_finish { s with now := max s.now t, pending := rest } := by
                simp [step, hpend, fire]
              rw [hs]
              exact (check_and_finish_fields _).2.2.2.2.1
          | doFinishEv w =>
              have hs : step Cmd.tick s
                  = do_finish w { s with now := max s.now t, pending := rest } := by
                simp [step, hpend, fire]
              rw [hs]
              exact (do_finish_fields w _).2.2.2.2.2.2.1

lemma run_finishScheduled : ∀ (cmds : List Cmd) (s : Sys),
    (∀ c ∈ cmds, isFinishCmd c = false) →
    (run cmds s).st.finishScheduled = s.st.finishScheduled := by
  intro cmds
  induction cmds with
  | nil => intro s _; rfl
  | cons c rest ih =>
      intro s h
      rw [run_cons]
      exact (ih (step c s) (fun c' h' => h c' (List.mem_cons_of_mem _ h'))).trans
        (step_finishScheduled c s (h c (List.mem_cons_self _ _)))

lemma finish_sets_flag (w : Nat) (s : Sys) (hsp : s.st.splashExists = true) :
    (finish w s).st.finishScheduled = true := by
  cases hst : s.st.start_time with
  | none =>
      rw [finish_eq_of_none w s hsp hst]
  | some t0 =>
      by_cases h2 : s.now - t0 < s.st.min_splash_time
      · rw [finish_eq_of_early w s t0 hsp hst h2]
        rfl
      · rw [finish_eq_of_late w s t0 hsp hst (by omega)]
        exact (do_finish_fields w _).2.2.2.2.2.2.1

/-- C7: `is_finish_scheduled` returns `false` on a freshly constructed
manager and at every point of an execution containing no `finish` call (the
flag defaults to false and only `finish` sets it); and it returns `true`
immediately after any `finish(w)` call, whether or not `min_splash_time`
has elapsed. -/
theorem c7_is_finish_scheduled (sv : Bool) (cmds : List Cmd) (t : Int) (w : Nat)
    (h : ∀ c ∈ cmds, isFinishCmd c = false) :
    is_finish_scheduled (initSys sv) = false ∧
    is_finish_scheduled (run cmds (initSys sv)) = false ∧
    is_finish_scheduled
      (run (cmds ++ [Cmd.call t (Act.callFinish w)]) (initSys sv)) = true := by
  refine ⟨by cases sv <;> rfl, ?_, ?_⟩
  · have hr := run_finishScheduled cmds (initSys sv) h
    unfold is_finish_scheduled
    rw [hr]
    cases sv <;> rfl
  · rw [run_append]
    have hsp : (run cmds (initSys sv)).st.splashExists = true := by
      rw [run_splashExists]
      cases sv <;> rfl
    unfold is_finish_scheduled
    have hone : run [Cmd.call t (Act.callFinish w)] (run cmds (initSys sv))
        = finish w { run cmds (initSys sv) with
            now := max (run cmds (initSys sv)).now t } := rfl
    rw [hone]
    exact finish_sets_flag w _ hsp

theorem c7_is_finish_scheduled_witness :
    is_finish_scheduled (initSys true) = false ∧
    is_finish_scheduled (run [Cmd.call 0 Act.callShow] (initSys true)) = false ∧
    is_finish_scheduled
      (run ([Cmd.call 0 Act.callShow] ++ [Cmd.call 500 (Act.callFinish 1)])
        (initSys true)) = true :=
  c7_is_finish_scheduled true [Cmd.call 0 Act.callShow] 500 1 (by decide)

/-- C8: an invalid spinner animation at construction time does not raise and
does not abort construction (`init` is total): it only emits the debug log
line, the splash surface is still created, the spinner handle is still
started, and a subsequent `show()` still presents the surface. -/
theorem c8_spinner_failure :
    (init false).splashExists = true ∧
    LogMsg.spinnerInvalid ∈ (init false).log ∧
    (init false).spinnerStarted = true ∧
    (showSplash (initSys false)).st.visible = true := by
  exact ⟨rfl, by decide, rfl, rfl⟩

/-- C9: a `finish(w)` call after construction but before `show()` (when
`start_time` is still unset) sets the finish-scheduled flag and returns:
it schedules no timer, does not invoke `_do_finish`, and leaves the surface
and the transition log untouched. -/
theorem c9_finish_before_show (w : Nat) (s : Sys)
    (hsp : s.st.splashExists = true) (hst : s.st.start_time = none) :
    (finish w s).st.finishScheduled = true ∧
    (finish w s).pending = s.pending ∧
    (finish w s).st.doFinishCalls = s.st.doFinishCalls ∧
    (finish w s).st.visible = s.st.visible ∧
    (finish w s).st.transitions = s.st.transitions := by
  rw [finish_eq_of_none w s hsp hst]
  exact ⟨rfl, rfl, rfl, rfl, rfl⟩

theorem c9_finish_before_show_witness :
    (finish 3 (initSys true)).st.finishScheduled = true ∧
    (finish 3 (initSys true)).pending = (initSys true).pending ∧
    (finish 3 (initSys true)).st.doFinishCalls
        = (initSys true).st.doFinishCalls ∧
    (finish 3 (initSys true)).st.visible = (initSys true).st.visible ∧
    (finish 3 (initSys true)).st.transitions = (initSys true).st.transitions :=
  c9_finish_before_show 3 (initSys true) rfl rfl

/-! ### `finish` never assigns the main-window reference (claim C10) -/

lemma step_main_window (c : Cmd) (s : Sys) (hc : isSetMainCmd c = false) :
    (step c s).st.main_window = s.st.main_window := by
  cases c with
  | call t a =>
      cases a with
      | callShow => exact (showSplash_fields _).2.2.1
      | callClose => exact (close_fields _).2.2.2.2.2.1
      | callFinish w => exact (finish_fields w _).2.2.2.1
      | setMain w => simp [isSetMainCmd] at hc
  | tick =>
      cases hpend : s.pending with
      | nil => simp [step, hpend]
      | cons q rest =>
          obtain ⟨t, e⟩ := q
          cases e with
          | checkEv =>
              have hs : step Cmd.tick s
                  = check_and_finish { s with now := max s.now t, pending := rest } := by
                simp [step, hpend, fire]
              rw [hs]
              exact (check_and_finish_fields _).2.2.2.1
          | doFinishEv w =>
              have hs : step Cmd.tick s
                  = do_finish w { s with now := max s.now t, pending := rest } := by
                simp [step, hpend, fire]
              rw [hs]
              exact (do_finish_fields w _).2.2.2.2.2.1

lemma run_main_window : ∀ (cmds : List Cmd) (s : Sys),
    (∀ c ∈ cmds, isSetMainCmd c = false) →
    (run cmds s).st.main_window = s.st.main_window := by
  intro cmds
  induction cmds with
  | nil => intro s _; rfl
  | cons c rest ih =>
      intro s h
      rw [run_cons]
      exact (ih (step c s) (fun c' h' => h c' (List.mem_cons_of_mem _ h'))).trans
        (step_main_window c s (h c (List.mem_cons_self _ _)))

/-- C10: no `finish(w)` call (nor `_check_and_finish` nor `_do_finish`)
ever modifies `self.main_window`; more generally, in any execution whose
commands never include the host assigning `main_window`, the field keeps
its value — so the polling chain can only be ended by an external
collaborator assigning `main_window` directly, never by calling `finish`. -/
theorem c10_finish_frame (w : Nat) (s : Sys) (cmds : List Cmd) :
    (finish w s).st.main_window = s.st.main_window ∧
    (check_and_finish s).st.main_window = s.st.main_window ∧
    (do_finish w s).st.main_window = s.st.main_window ∧
    ((∀ c ∈ cmds, isSetMainCmd c = false) →
      (run cmds s).st.main_window = s.st.main_window) := by
  exact ⟨(finish_fields w s).2.2.2.1, (check_and_finish_fields s).2.2.2.1,
    (do_finish_fields w s).2.2.2.2.2.1, run_main_window cmds s⟩

theorem c10_finish_frame_witness :
    (finish 1 exC2).st.main_window = exC2.st.main_window ∧
    (check_and_finish exC2).st.main_window = exC2.st.main_window ∧
    (do_finish 1 exC2).st.main_window = exC2.st.main_window ∧
    (run exC10cmds exC2).st.main_window = exC2.st.main_window :=
  have h := c10_finish_frame 1 exC2 exC10cmds
  ⟨h.1, h.2.1, h.2.2.1, h.2.2.2 (by decide)⟩

end SplashManager
